import Mathlib

/-
Verification of the DDP capture tool (capture_ddp.py).

The script is a single event loop over UDP datagrams.  We embed it shallowly:
the mutable locals of main() become fields of a CaptureState record, each
received datagram becomes one application of processDatagram, and the
socket-timeout branch becomes timeoutStep.  Time is abstracted to a Nat of
milliseconds supplied with each event.  Python runtime errors that the script
does not catch (ValueError from bytearray(negative), OverflowError from
int.to_bytes) are modeled with an error monad: a .error result means the
process crashes with an unhandled exception.
-/

deriving instance DecidableEq for Except

/-- Big-endian interpretation of a byte list, as in struct.unpack of a MSB-first field. -/
def bytesToBENat (bs : List Nat) : Nat := bs.foldl (fun a b => a * 256 + b) 0

/-- Little-endian encoding on n bytes, as in int.to_bytes(n, byteorder=little) for values that fit. -/
def natToLE : Nat → Nat → List Nat
  | 0, _ => []
  | n + 1, v => v % 256 :: natToLE n (v / 256)

/-- is_empty_bytearray: true iff every byte is zero (vacuously true for the empty payload). -/
def isEmptyBytes (p : List Nat) : Bool := p.all (fun b => b == 0)

/-- Python slice assignment buf[off : off + len(p)] = p for in-bounds writes. -/
def writeSlice (buf : List Nat) (off : Nat) (p : List Nat) : List Nat :=
  buf.take off ++ p ++ buf.drop (off + p.length)

/-- Per-string padding of a frame part: unchanged when max_bytes is None, otherwise
zero-extended on the right when shorter and truncated when longer (lines 202-208). -/
def padTo : Option Nat → List Nat → List Nat
  | none, b => b
  | some m, b => if b.length < m then b ++ List.replicate (m - b.length) 0 else b.take m

/-- Python max() over a list of ints; none on the empty list (where Python raises ValueError). -/
def maxIntList : List Int → Option Int
  | [] => none
  | x :: xs => some (xs.foldl max x)

/-- The signed lengths e - s of the learned ranges, in assignment order. -/
def rangeLens (R : List (Nat × Nat)) : List Int :=
  R.map (fun r => (r.2 : Int) - (r.1 : Int))

/-- max_pixels as the script computes it: floor division of the maximal signed range
length by 3 (CHANNELS_PER_PIXEL). -/
def maxPixelsOf (R : List (Nat × Nat)) : Int :=
  Int.fdiv ((maxIntList (rangeLens R)).getD 0) 3

/-- Decode failures: the three ways a datagram is rejected by the header parsing code. -/
inductive DecodeError
  | TooShort
  | TruncatedTimecode
  | PayloadLengthMismatch
deriving DecidableEq, Repr

/-- The fields parsed out of a raw datagram (lines 83-120 of capture_ddp.py). -/
structure DDPHeader where
  flags1 : Nat
  flags2 : Nat
  dataType : Nat
  stringId : Nat
  offset : Nat
  length : Nat
  hasTimecode : Bool
  timecode : Option Nat
  payload : List Nat
deriving DecidableEq, Repr

/-- Header Decoder: parse a raw byte list into a DDPHeader or a decode failure,
mirroring lines 78-123 of capture_ddp.py.  offset is bytes 4-7 MSB first, length is
bytes 8-9 MSB first, the timecode (when flagged by bit 4 of byte 0) occupies bytes
10-13 and shifts the payload start from 10 to 14, and the payload must contain
exactly `length` bytes. -/
def decodeDatagram (data : List Nat) : Except DecodeError DDPHeader :=
  if data.length < 10 then .error .TooShort
  else
    let flags1 := data.getD 0 0
    let hasTimecode := Nat.testBit flags1 4
    if hasTimecode ∧ data.length < 14 then .error .TruncatedTimecode
    else
      let pos := if hasTimecode then 14 else 10
      let length := bytesToBENat ((data.drop 8).take 2)
      let payload := (data.drop pos).take length
      if payload.length ≠ length then .error .PayloadLengthMismatch
      else .ok {
        flags1 := flags1
        flags2 := data.getD 1 0
        dataType := data.getD 2 0
        stringId := data.getD 3 0
        offset := bytesToBENat ((data.drop 4).take 4)
        length := length
        hasTimecode := hasTimecode
        timecode := if hasTimecode then some (bytesToBENat ((data.drop 10).take 4)) else none
        payload := payload }

/-- Unhandled Python exceptions the script can raise while processing packets. -/
inductive PyError
  | emptyRanges          -- max() over an empty sequence (only reachable with 0 strings configured)
  | headerOverflow       -- max_pixels.to_bytes(2, little) with max_pixels < 0 or >= 2^16
  | negativeBufferSize   -- bytearray(e - s) with e < s
  | timestampOverflow    -- time_ms.to_bytes(4, little) with time_ms >= 2^32
deriving DecidableEq, Repr

/-- The mutable locals of main(), plus the configuration and the bytes written to
the output file, plus a terminated flag modeling `return`. -/
structure CaptureState where
  numberOfStrings : Nat
  secondsToCapture : Option Nat
  stringsRanges : List (Nat × Nat)   -- assignment order; internal id of entry i is i+1
  nextAssigned : Nat
  packetsSeen : Nat
  start : Nat                        -- running cursor for the next range's start
  isBeginning : Bool
  emptyFrames : Nat
  collecting : Bool
  buffers : List (List Nat)          -- entry i is the buffer of string i+1
  filledCount : List Nat
  maxBytes : Option Nat
  startTime : Option Nat             -- ms; set when the first non-empty payload arrives
  lastFrameTime : Option Nat         -- ms
  framesWritten : Nat
  output : List Nat                  -- bytes of the output file
  terminated : Bool
deriving DecidableEq, Repr

/-- The state at program start (lines 45-56); the configuration comes from the CLI. -/
def initState (numberOfStrings : Nat) (secondsToCapture : Option Nat) : CaptureState :=
  { numberOfStrings := numberOfStrings
    secondsToCapture := secondsToCapture
    stringsRanges := []
    nextAssigned := 1
    packetsSeen := 0
    start := 0
    isBeginning := true
    emptyFrames := 0
    collecting := false
    buffers := []
    filledCount := []
    maxBytes := none
    startTime := none
    lastFrameTime := none
    framesWritten := 0
    output := []
    terminated := false }

/-- The for-loop of lines 184-191: index of the first range (in assignment order)
that contains [offset, offset+length) entirely. -/
def matchRangeAux : List (Nat × Nat) → Nat → Nat → Nat → Option Nat
  | [], _, _, _ => none
  | r :: rs, off, len, i =>
      if r.1 ≤ off ∧ off + len ≤ r.2 then some i else matchRangeAux rs off len (i + 1)

def matchRange (ranges : List (Nat × Nat)) (off len : Nat) : Option Nat :=
  matchRangeAux ranges off len 0

/-- Line 196: all buffers' filled counts equal their own lengths. -/
def allFull (filled : List Nat) (bufs : List (List Nat)) : Bool :=
  (List.range bufs.length).all (fun i => filled.getD i 0 == (bufs.getD i []).length)

/-- Range Learner step (lines 127-136): while not collecting, a push packet assigns
the next running string number the range (cursor, offset+length) and advances the cursor. -/
def pushStage (st : CaptureState) (h : DDPHeader) : CaptureState :=
  if !st.collecting && Nat.testBit h.flags1 0 then
    { st with
      stringsRanges := st.stringsRanges ++ [(st.start, h.offset + h.length)]
      nextAssigned := st.nextAssigned + 1
      start := h.offset + h.length }
  else st

/-- Discovery finalization (lines 139-167): once the learned range count reaches the
configured string count, compute max_pixels, write the 2-byte little-endian header
(open mode wb truncates the file) and allocate one zeroed buffer per range sized to
that range's own signed length.  bytearray of a negative length and to_bytes of an
out-of-range value are unhandled Python errors. -/
def finalizeStep (st : CaptureState) : Except PyError CaptureState :=
  if st.collecting = false ∧ st.numberOfStrings ≤ st.stringsRanges.length then
    match maxIntList (rangeLens st.stringsRanges) with
    | none => .error .emptyRanges
    | some maxStringLen =>
      let maxPixels : Int := Int.fdiv maxStringLen 3
      if maxPixels < 0 ∨ 65536 ≤ maxPixels then .error .headerOverflow
      else if (rangeLens st.stringsRanges).any (fun l => decide (l < 0)) then
        .error .negativeBufferSize
      else .ok { st with
        output := natToLE 2 maxPixels.toNat
        buffers := st.stringsRanges.map (fun r => List.replicate (r.2 - r.1) 0)
        filledCount := st.stringsRanges.map (fun _ => 0)
        maxBytes := some (maxPixels.toNat * 3)
        collecting := true
        framesWritten := 0 }
  else .ok st

/-- Lines 186-189: copy the payload into the matched buffer at the relative offset and
add the packet length to that buffer's filled count. -/
def writeStage (st : CaptureState) (i : Nat) (h : DDPHeader) : CaptureState :=
  { st with
    buffers := st.buffers.set i
      (writeSlice (st.buffers.getD i []) (h.offset - (st.stringsRanges.getD i (0, 0)).1) h.payload)
    filledCount := st.filledCount.set i (st.filledCount.getD i 0 + h.length) }

/-- Lines 239-242: zero every buffer in place and reset every filled count. -/
def resetBuffers (st : CaptureState) : CaptureState :=
  { st with
    buffers := st.buffers.map (fun b => List.replicate b.length 0)
    filledCount := st.filledCount.map (fun _ => 0) }

/-- Frame emission (lines 198-242): concatenate the buffers in ascending id order,
each padded or truncated to max_bytes, prefix the 4-byte little-endian elapsed
milliseconds, append the record to the output file, bump the counters, then either
return (duration limit reached: no reset) or reset the buffers for the next frame. -/
def emitFrame (st : CaptureState) (now : Nat) : Except PyError CaptureState :=
  let timeMs := now - st.startTime.getD 0
  if 4294967296 ≤ timeMs then .error .timestampOverflow
  else
    let st1 := { st with
      output := st.output ++ natToLE 4 timeMs ++ (st.buffers.map (padTo st.maxBytes)).flatten
      lastFrameTime := some now
      framesWritten := st.framesWritten + 1 }
    match st.secondsToCapture with
    | some limit =>
        if 1000 * limit ≤ timeMs then .ok { st1 with terminated := true }
        else .ok (resetBuffers st1)
    | none => .ok (resetBuffers st1)

/-- Frame Assembler step (lines 181-242): find the first range containing the packet,
write into its buffer, and on all-full emit a frame; an unmatched packet changes nothing. -/
def collectStep (st : CaptureState) (h : DDPHeader) (now : Nat) : Except PyError CaptureState :=
  match matchRange st.stringsRanges h.offset h.length with
  | none => .ok st
  | some i =>
      let st1 := writeStage st i h
      if allFull st1.filledCount st1.buffers then emitFrame st1 now else .ok st1

/-- Processing of one decoded header (lines 127-242): range learning, discovery
finalization, the leading-empty skip, then frame assembly while collecting. -/
def processHeader (st : CaptureState) (h : DDPHeader) (now : Nat) : Except PyError CaptureState :=
  (finalizeStep (pushStage st h)).bind (fun st2 =>
    if st2.isBeginning && isEmptyBytes h.payload then
      .ok { st2 with emptyFrames := st2.emptyFrames + 1 }
    else
      let st3 :=
        if st2.isBeginning then
          { st2 with isBeginning := false, startTime := some now, lastFrameTime := some now }
        else st2
      if st3.collecting then collectStep st3 h now else .ok st3)

/-- One loop iteration for a received datagram.  TooShort and TruncatedTimecode skip
before the packets_seen increment (lines 78-100); PayloadLengthMismatch skips after it
(lines 102, 120-123).  A terminated state processes nothing. -/
def processDatagram (st : CaptureState) (data : List Nat) (now : Nat) :
    Except PyError CaptureState :=
  if st.terminated then .ok st
  else
    match decodeDatagram data with
    | .error .PayloadLengthMismatch => .ok { st with packetsSeen := st.packetsSeen + 1 }
    | .error _ => .ok st
    | .ok h => processHeader { st with packetsSeen := st.packetsSeen + 1 } h now

/-- The socket-timeout branch (lines 62-75): while collecting and past the leading-empty
phase, five seconds with no completed frame since last_frame_time exits the loop. -/
def timeoutStep (st : CaptureState) (now : Nat) : CaptureState :=
  if st.terminated then st
  else if st.collecting && !st.isBeginning && st.lastFrameTime.isSome
      && decide (5000 ≤ now - st.lastFrameTime.getD 0) then
    { st with terminated := true }
  else st

/-- Fold processDatagram over a list of timestamped datagrams. -/
def runPackets (st : CaptureState) : List (List Nat × Nat) → Except PyError CaptureState
  | [] => .ok st
  | ev :: evs => (processDatagram st ev.1 ev.2).bind (fun st1 => runPackets st1 evs)

/-- Range Learner in isolation (lines 129-136): fold the (offset, length) pairs of the
push packets, assigning each the range (cursor, offset+length). -/
def learnRangesAux : Nat → List (Nat × Nat) → List (Nat × Nat)
  | _, [] => []
  | c, (off, len) :: ps => (c, off + len) :: learnRangesAux (off + len) ps

def learnRanges (pushes : List (Nat × Nat)) : List (Nat × Nat) :=
  learnRangesAux 0 pushes

/-- The cursor value after processing a list of pushes. -/
def lastCursor : Nat → List (Nat × Nat) → Nat
  | c, [] => c
  | _, (off, len) :: ps => lastCursor (off + len) ps

/-- Each push's end offset+length is at least the cursor it is assigned from. -/
def endsMonotoneB : Nat → List (Nat × Nat) → Bool
  | _, [] => true
  | c, (off, len) :: ps => decide (c ≤ off + len) && endsMonotoneB (off + len) ps

/-- Consecutive ranges chain: each range starts at the given cursor and hands its end
to the next. -/
def chainFrom : Nat → List (Nat × Nat) → Prop
  | _, [] => True
  | c, r :: rs => r.1 = c ∧ chainFrom r.2 rs

/-- Membership of a point in a half-open range. -/
def inRange (r : Nat × Nat) (x : Nat) : Prop := r.1 ≤ x ∧ x < r.2

/-- The ranges partition the half-open interval from lo to hi: each part lies inside
it, every point of it is covered, and distinct parts are disjoint. -/
def isPartitionFrom (lo : Nat) (ranges : List (Nat × Nat)) (hi : Nat) : Prop :=
  (∀ r, r ∈ ranges → lo ≤ r.1 ∧ r.2 ≤ hi) ∧
  (∀ x, lo ≤ x → x < hi → ∃ i, i < ranges.length ∧ inRange (ranges.getD i (0, 0)) x) ∧
  (∀ i j, i < ranges.length → j < ranges.length → i ≠ j →
    ∀ x, inRange (ranges.getD i (0, 0)) x → ¬ inRange (ranges.getD j (0, 0)) x)

def isPartition (ranges : List (Nat × Nat)) (total : Nat) : Prop :=
  isPartitionFrom 0 ranges total

/-- Every string's filled count is bounded by its own buffer length. -/
def invariantB (st : CaptureState) : Bool :=
  (List.range st.buffers.length).all
    (fun i => decide (st.filledCount.getD i 0 ≤ (st.buffers.getD i []).length))

/-- Structural consistency of a collecting state: the three per-string lists have equal
length and each buffer is sized to its range. -/
def consistentB (st : CaptureState) : Bool :=
  (st.buffers.length == st.stringsRanges.length) &&
  (st.filledCount.length == st.stringsRanges.length) &&
  (List.range st.stringsRanges.length).all (fun i =>
    (st.buffers.getD i []).length ==
      (st.stringsRanges.getD i (0, 0)).2 - (st.stringsRanges.getD i (0, 0)).1)

/-- Some string's filled count strictly exceeds its buffer length. -/
def brokenB (st : CaptureState) : Bool :=
  (List.range st.buffers.length).any
    (fun i => decide ((st.buffers.getD i []).length < st.filledCount.getD i 0))

/-- No unhandled exception can come out of finalization on these ranges: the maximum
signed length exists, its pixel count fits an unsigned 16-bit header, and no range
has a negative length. -/
def noFinalizeCrash (R : List (Nat × Nat)) : Bool :=
  match maxIntList (rangeLens R) with
  | none => false
  | some m =>
      let p := Int.fdiv m 3
      decide (0 ≤ p) && decide (p < 65536) && (rangeLens R).all (fun l => decide (0 ≤ l))

/-- Processing this datagram in this state cannot crash in discovery finalization:
either the packet does not trigger finalization, or the ranges it finalizes are safe. -/
def finalizeSafe (st : CaptureState) (data : List Nat) : Bool :=
  match decodeDatagram data with
  | .error _ => true
  | .ok h =>
      let R := (pushStage st h).stringsRanges
      if !st.collecting && decide (st.numberOfStrings ≤ R.length) then noFinalizeCrash R
      else true

-- Concrete states used to instantiate theorems with hypotheses.

/-- A collecting-state with the two learned ranges of the spec's Scenario B. -/
def scenarioBState : CaptureState :=
  { numberOfStrings := 2
    secondsToCapture := none
    stringsRanges := [(0, 15), (15, 45)]
    nextAssigned := 3
    packetsSeen := 2
    start := 45
    isBeginning := false
    emptyFrames := 0
    collecting := true
    buffers := [List.replicate 15 0, List.replicate 30 0]
    filledCount := [0, 0]
    maxBytes := some 30
    startTime := some 0
    lastFrameTime := some 0
    framesWritten := 0
    output := [10, 0]
    terminated := false }

/-- The decoded header of Scenario B's boundary-spanning packet: offset 10, length 10. -/
def scenarioBHeader : DDPHeader :=
  { flags1 := 0
    flags2 := 0
    dataType := 0
    stringId := 0
    offset := 10
    length := 10
    hasTimecode := false
    timecode := none
    payload := List.replicate 10 1 }

/-- The discovery state of the spec's Scenario A right after its single push packet
(offset 0, length 30) assigned the range (0,30), before finalization. -/
def scenarioAState : CaptureState :=
  { initState 1 none with
    stringsRanges := [(0, 30)]
    nextAssigned := 2
    packetsSeen := 1
    start := 30 }

/-- A collecting single-string state (range (0,6)) still in the leading-empty phase. -/
def oneStringState : CaptureState :=
  { numberOfStrings := 1
    secondsToCapture := none
    stringsRanges := [(0, 6)]
    nextAssigned := 2
    packetsSeen := 1
    start := 6
    isBeginning := true
    emptyFrames := 0
    collecting := true
    buffers := [[0, 0, 0, 0, 0, 0]]
    filledCount := [0]
    maxBytes := some 6
    startTime := none
    lastFrameTime := none
    framesWritten := 0
    output := [2, 0]
    terminated := false }

/-- The same single-string state past the leading-empty phase with an over-counted
filled count (8 > 6), as produced by two overlapping 4-byte writes. -/
def overfilledState : CaptureState :=
  { oneStringState with
    isBeginning := false
    filledCount := [8]
    buffers := [[1, 0, 0, 0, 1, 0]]
    startTime := some 0
    lastFrameTime := some 0 }

-- Helper lemmas about byte slices.

lemma take_drop_two (l : List Nat) (i : Nat) (h : i + 2 ≤ l.length) :
    (l.drop i).take 2 = [l.getD i 0, l.getD (i + 1) 0] := by
  induction i generalizing l with
  | zero =>
    match l, h with
    | a :: b :: t, _ => simp [List.getD]
  | succ i ih =>
    match l, h with
    | a :: t, h =>
      have : i + 2 ≤ t.length := by simpa using h
      simpa [List.getD_cons_succ] using ih t this

lemma take_drop_four (l : List Nat) (i : Nat) (h : i + 4 ≤ l.length) :
    (l.drop i).take 4 = [l.getD i 0, l.getD (i + 1) 0, l.getD (i + 2) 0, l.getD (i + 3) 0] := by
  induction i generalizing l with
  | zero =>
    match l, h with
    | a :: b :: c :: d :: t, _ => simp [List.getD]
  | succ i ih =>
    match l, h with
    | a :: t, h =>
      have : i + 4 ≤ t.length := by simpa using h
      simpa [List.getD_cons_succ] using ih t this

lemma bytesToBENat_two (a b : Nat) : bytesToBENat [a, b] = a * 256 + b := by
  simp [bytesToBENat, List.foldl]

lemma bytesToBENat_four (a b c d : Nat) :
    bytesToBENat [a, b, c, d] = a * 16777216 + b * 65536 + c * 256 + d := by
  simp [bytesToBENat, List.foldl]; ring

/-- Closed form of the decoder: the guard structure of lines 78-123 rewritten with all
byte fields spelled out. -/
lemma decodeDatagram_closed (data : List Nat) :
    decodeDatagram data =
      if data.length < 10 then .error .TooShort
      else if Nat.testBit (data.getD 0 0) 4 = true ∧ data.length < 14 then
        .error .TruncatedTimecode
      else if data.length < (if Nat.testBit (data.getD 0 0) 4 = true then 14 else 10) +
          (data.getD 8 0 * 256 + data.getD 9 0) then .error .PayloadLengthMismatch
      else .ok {
        flags1 := data.getD 0 0
        flags2 := data.getD 1 0
        dataType := data.getD 2 0
        stringId := data.getD 3 0
        offset := data.getD 4 0 * 16777216 + data.getD 5 0 * 65536 +
          data.getD 6 0 * 256 + data.getD 7 0
        length := data.getD 8 0 * 256 + data.getD 9 0
        hasTimecode := Nat.testBit (data.getD 0 0) 4
        timecode := if Nat.testBit (data.getD 0 0) 4 = true then
            some (data.getD 10 0 * 16777216 + data.getD 11 0 * 65536 +
              data.getD 12 0 * 256 + data.getD 13 0)
          else none
        payload := (data.drop (if Nat.testBit (data.getD 0 0) 4 = true then 14 else 10)).take
          (data.getD 8 0 * 256 + data.getD 9 0) } := by
  by_cases h10 : data.length < 10
  · simp [decodeDatagram, h10]
  · have h2 : bytesToBENat ((data.drop 8).take 2) = data.getD 8 0 * 256 + data.getD 9 0 := by
      rw [take_drop_two data 8 (by omega), bytesToBENat_two]
    have h4 : bytesToBENat ((data.drop 4).take 4) =
        data.getD 4 0 * 16777216 + data.getD 5 0 * 65536 +
          data.getD 6 0 * 256 + data.getD 7 0 := by
      rw [take_drop_four data 4 (by omega), bytesToBENat_four]
    by_cases htc : Nat.testBit (data.getD 0 0) 4 = true
    · by_cases h14 : data.length < 14
      · have hcond : Nat.testBit (data.getD 0 0) 4 = true ∧ data.length < 14 := ⟨htc, h14⟩
        simp only [decodeDatagram]
        rw [if_neg h10, if_neg h10, if_pos hcond, if_pos hcond]
      · have hcond : ¬ (Nat.testBit (data.getD 0 0) 4 = true ∧ data.length < 14) :=
          fun hx => h14 hx.2
        have h4t : bytesToBENat ((data.drop 10).take 4) =
            data.getD 10 0 * 16777216 + data.getD 11 0 * 65536 +
              data.getD 12 0 * 256 + data.getD 13 0 := by
          rw [take_drop_four data 10 (by omega), bytesToBENat_four]
        have hpos : (if Nat.testBit (data.getD 0 0) 4 = true then 14 else 10) = 14 :=
          if_pos htc
        have hb : (((data.drop 14).take (data.getD 8 0 * 256 + data.getD 9 0)).length ≠
              (data.getD 8 0 * 256 + data.getD 9 0)) ↔
            data.length < 14 + (data.getD 8 0 * 256 + data.getD 9 0) := by
          simp only [List.length_take, List.length_drop]
          omega
        simp only [decodeDatagram]
        rw [if_neg h10, if_neg h10, if_neg hcond, if_neg hcond, h2, h4, h4t, hpos]
        by_cases hpl : data.length < 14 + (data.getD 8 0 * 256 + data.getD 9 0)
        · rw [if_pos (hb.mpr hpl), if_pos hpl]
        · rw [if_neg (fun hx => hpl (hb.mp hx)), if_neg hpl]
    · have hcond : ¬ (Nat.testBit (data.getD 0 0) 4 = true ∧ data.length < 14) :=
        fun hx => htc hx.1
      have hpos : (if Nat.testBit (data.getD 0 0) 4 = true then 14 else 10) = 10 :=
        if_neg htc
      have hb : (((data.drop 10).take (data.getD 8 0 * 256 + data.getD 9 0)).length ≠
            (data.getD 8 0 * 256 + data.getD 9 0)) ↔
          data.length < 10 + (data.getD 8 0 * 256 + data.getD 9 0) := by
        simp only [List.length_take, List.length_drop]
        omega
      simp only [decodeDatagram]
      rw [if_neg h10, if_neg h10, if_neg hcond, if_neg hcond, h2, h4, hpos]
      by_cases hpl : data.length < 10 + (data.getD 8 0 * 256 + data.getD 9 0)
      · rw [if_pos (hb.mpr hpl), if_pos hpl]
      · rw [if_neg (fun hx => hpl (hb.mp hx)), if_neg hpl, if_neg htc, if_neg htc]

/-- C6: decoding fails exactly in the three stated cases, a failed datagram leaves the
session state of the data model unmutated (only the diagnostic packets_seen counter
moves, and only on a payload-length mismatch), and a successful decode yields the
offset from bytes 4-7 big-endian, the length from bytes 8-9 big-endian, and a payload
of exactly `length` bytes starting at byte 14 with a timecode and byte 10 without. -/
theorem C6_decode_characterization (data : List Nat) :
    (decodeDatagram data = .error .TooShort ↔ data.length < 10) ∧
    (decodeDatagram data = .error .TruncatedTimecode ↔
      10 ≤ data.length ∧ Nat.testBit (data.getD 0 0) 4 = true ∧ data.length < 14) ∧
    (decodeDatagram data = .error .PayloadLengthMismatch ↔
      10 ≤ data.length ∧ ¬ (Nat.testBit (data.getD 0 0) 4 = true ∧ data.length < 14) ∧
      data.length < (if Nat.testBit (data.getD 0 0) 4 = true then 14 else 10) +
        (data.getD 8 0 * 256 + data.getD 9 0)) ∧
    (∀ h, decodeDatagram data = .ok h →
      h.offset = data.getD 4 0 * 16777216 + data.getD 5 0 * 65536 +
        data.getD 6 0 * 256 + data.getD 7 0 ∧
      h.length = data.getD 8 0 * 256 + data.getD 9 0 ∧
      h.payload.length = h.length ∧
      h.hasTimecode = Nat.testBit (data.getD 0 0) 4 ∧
      h.payload = (data.drop (if Nat.testBit (data.getD 0 0) 4 = true then 14 else 10)).take
        (data.getD 8 0 * 256 + data.getD 9 0)) ∧
    (∀ st now err, st.terminated = false → decodeDatagram data = .error err →
      processDatagram st data now =
        .ok (if err = .PayloadLengthMismatch
          then { st with packetsSeen := st.packetsSeen + 1 } else st)) := by
  refine ⟨?_, ?_, ?_, ?_, ?_⟩
  · rw [decodeDatagram_closed]
    by_cases h10 : data.length < 10
    · rw [if_pos h10]
      exact ⟨fun _ => h10, fun _ => rfl⟩
    · rw [if_neg h10]
      by_cases htc14 : Nat.testBit (data.getD 0 0) 4 = true ∧ data.length < 14
      · rw [if_pos htc14]
        exact ⟨fun hc => absurd hc (by simp), fun hc => absurd hc h10⟩
      · rw [if_neg htc14]
        by_cases hpl : data.length <
            (if Nat.testBit (data.getD 0 0) 4 = true then 14 else 10) +
              (data.getD 8 0 * 256 + data.getD 9 0)
        · rw [if_pos hpl]
          exact ⟨fun hc => absurd hc (by simp), fun hc => absurd hc h10⟩
        · rw [if_neg hpl]
          exact ⟨fun hc => absurd hc (by simp), fun hc => absurd hc h10⟩
  · rw [decodeDatagram_closed]
    by_cases h10 : data.length < 10
    · rw [if_pos h10]
      exact ⟨fun hc => absurd hc (by simp), fun hc => absurd hc.1 (by omega)⟩
    · rw [if_neg h10]
      by_cases htc14 : Nat.testBit (data.getD 0 0) 4 = true ∧ data.length < 14
      · rw [if_pos htc14]
        exact ⟨fun _ => ⟨by omega, htc14.1, htc14.2⟩, fun _ => rfl⟩
      · rw [if_neg htc14]
        by_cases hpl : data.length <
            (if Nat.testBit (data.getD 0 0) 4 = true then 14 else 10) +
              (data.getD 8 0 * 256 + data.getD 9 0)
        · rw [if_pos hpl]
          exact ⟨fun hc => absurd hc (by simp), fun hc => absurd ⟨hc.2.1, hc.2.2⟩ htc14⟩
        · rw [if_neg hpl]
          exact ⟨fun hc => absurd hc (by simp), fun hc => absurd ⟨hc.2.1, hc.2.2⟩ htc14⟩
  · rw [decodeDatagram_closed]
    by_cases h10 : data.length < 10
    · rw [if_pos h10]
      exact ⟨fun hc => absurd hc (by simp), fun hc => absurd hc.1 (by omega)⟩
    · rw [if_neg h10]
      by_cases htc14 : Nat.testBit (data.getD 0 0) 4 = true ∧ data.length < 14
      · rw [if_pos htc14]
        exact ⟨fun hc => absurd hc (by simp), fun hc => absurd htc14 hc.2.1⟩
      · rw [if_neg htc14]
        by_cases hpl : data.length <
            (if Nat.testBit (data.getD 0 0) 4 = true then 14 else 10) +
              (data.getD 8 0 * 256 + data.getD 9 0)
        · rw [if_pos hpl]
          exact ⟨fun _ => ⟨by omega, htc14, hpl⟩, fun _ => rfl⟩
        · rw [if_neg hpl]
          exact ⟨fun hc => absurd hc (by simp), fun hc => absurd hc.2.2 hpl⟩
  · intro h hok
    rw [decodeDatagram_closed] at hok
    by_cases h10 : data.length < 10
    · rw [if_pos h10] at hok
      exact absurd hok (by simp)
    · rw [if_neg h10] at hok
      by_cases htc14 : Nat.testBit (data.getD 0 0) 4 = true ∧ data.length < 14
      · rw [if_pos htc14] at hok
        exact absurd hok (by simp)
      · rw [if_neg htc14] at hok
        by_cases hpl : data.length <
            (if Nat.testBit (data.getD 0 0) 4 = true then 14 else 10) +
              (data.getD 8 0 * 256 + data.getD 9 0)
        · rw [if_pos hpl] at hok
          exact absurd hok (by simp)
        · rw [if_neg hpl] at hok
          injection hok with hh
          subst hh
          refine ⟨rfl, rfl, ?_, rfl, rfl⟩
          by_cases htc : Nat.testBit (data.getD 0 0) 4 = true
          · have hpos : (if Nat.testBit (data.getD 0 0) 4 = true then 14 else 10) = 14 :=
              if_pos htc
            rw [hpos] at hpl ⊢
            simp only [List.length_take, List.length_drop]
            omega
          · have hpos : (if Nat.testBit (data.getD 0 0) 4 = true then 14 else 10) = 10 :=
              if_neg htc
            rw [hpos] at hpl ⊢
            simp only [List.length_take, List.length_drop]
            omega
  · intro st now err hterm hd
    cases err <;> simp [processDatagram, hterm, hd]

-- Counterexample runs, each a closed computation over concrete datagrams.

/-- A discovery sequence whose second push ends before the first (pushes with
decreasing offset+length) makes the learned range (100, 0) have negative length, and
buffer allocation crashes with an unhandled ValueError from bytearray(-100):
processing is not exception-free for every order of push packets. -/
theorem C1_counterexample :
    runPackets (initState 2 none)
      [([1, 0, 0, 0, 0, 0, 0, 100, 0, 0], 0),
       ([1, 0, 0, 0, 0, 0, 0, 0, 0, 0], 0)] = .error .negativeBufferSize := by decide

/-- Two overlapping accepted writes of 4 bytes each into the 6-byte buffer of the
single learned string drive its filled count to 8, strictly above the buffer length:
the invariant filledBytes ≤ len(data) does not hold after every processed packet. -/
theorem C2_counterexample :
    (runPackets (initState 1 none)
      [([1, 0, 0, 0, 0, 0, 0, 0, 0, 6, 0, 0, 0, 0, 0, 0], 0),
       ([0, 0, 0, 0, 0, 0, 0, 0, 0, 4, 1, 0, 0, 0], 0),
       ([0, 0, 0, 0, 0, 0, 0, 0, 0, 4, 1, 0, 0, 0], 1)]).map
      (fun s => (s.filledCount, s.buffers.map List.length, invariantB s, s.framesWritten)) =
    .ok ([8], [6], false, 0) := by decide

/-- With a one-second capture limit, the second completed frame is emitted
(framesWritten = 2) and the loop returns at once: the buffers are left filled
(filledCount = [3], buffer [7, 0, 0]) instead of being zeroed after the emission. -/
theorem C4_counterexample :
    (runPackets (initState 1 (some 1))
      [([1, 0, 0, 0, 0, 0, 0, 0, 0, 3, 0, 0, 0], 0),
       ([0, 0, 0, 0, 0, 0, 0, 0, 0, 3, 5, 0, 0], 0),
       ([0, 0, 0, 0, 0, 0, 0, 0, 0, 3, 7, 0, 0], 1000)]).map
      (fun s => (s.terminated, s.framesWritten, s.filledCount, s.buffers)) =
    .ok (true, 2, [3], [[7, 0, 0]]) := by decide

/-- After discovery of one 6-byte string and a single partial (3-byte) write that
completes no frame, the idle timeout at 5 seconds past the capture start fires with
framesWritten = 0: the timeout does not require a completed frame. -/
theorem C7_counterexample :
    (runPackets (initState 1 none)
      [([1, 0, 0, 0, 0, 0, 0, 0, 0, 6, 0, 0, 0, 0, 0, 0], 0),
       ([0, 0, 0, 0, 0, 0, 0, 0, 0, 3, 1, 0, 0], 1000)]).map
      (fun s => (s.framesWritten, (timeoutStep s 6000).terminated)) =
    .ok (0, true) := by decide

/-- A single push with offset 196608 learns the range (0, 196608), whose pixel count
65536 does not fit the 2-byte header: to_bytes raises OverflowError, so reaching the
configured string count does not always emit the header record. -/
theorem C8_counterexample :
    runPackets (initState 1 none)
      [([1, 0, 0, 0, 0, 3, 0, 0, 0, 0], 0)] = .error .headerOverflow := by decide

-- Sanity checks of the embedding on concrete traffic.

example :
    decodeDatagram [1, 0, 0, 0, 0, 0, 0, 0, 0, 3, 7, 8, 9] =
      .ok { flags1 := 1, flags2 := 0, dataType := 0, stringId := 0, offset := 0, length := 3,
            hasTimecode := false, timecode := none, payload := [7, 8, 9] } := by decide

example :
    (runPackets (initState 1 none)
      [([1, 0, 0, 0, 0, 0, 0, 0, 0, 3, 0, 0, 0], 0)]).map
      (fun s => (s.collecting, s.maxBytes, s.output, s.buffers, s.emptyFrames)) =
    .ok (true, some 3, [1, 0], [[0, 0, 0]], 1) := by decide

example :
    (runPackets (initState 1 none)
      [([1, 0, 0, 0, 0, 0, 0, 0, 0, 3, 0, 0, 0], 0),
       ([0, 0, 0, 0, 0, 0, 0, 0, 0, 3, 5, 0, 0], 7)]).map
      (fun s => (s.framesWritten, s.output, s.buffers, s.filledCount, s.startTime)) =
    .ok (1, [1, 0, 0, 0, 0, 0, 5, 0, 0], [[0, 0, 0]], [0], some 7) := by decide

-- Range Learner: chain and partition lemmas (claim C3).

lemma chainFrom_learnRangesAux (ps : List (Nat × Nat)) (c : Nat) :
    chainFrom c (learnRangesAux c ps) := by
  induction ps generalizing c with
  | nil => trivial
  | cons p ps ih =>
    obtain ⟨off, len⟩ := p
    exact ⟨rfl, ih _⟩

lemma le_lastCursor (ps : List (Nat × Nat)) (c : Nat) (hm : endsMonotoneB c ps = true) :
    c ≤ lastCursor c ps := by
  induction ps generalizing c with
  | nil => exact le_refl c
  | cons p ps ih =>
    obtain ⟨off, len⟩ := p
    simp only [endsMonotoneB, Bool.and_eq_true, decide_eq_true_eq] at hm
    exact le_trans hm.1 (ih _ hm.2)

lemma isPartitionFrom_learnRangesAux (ps : List (Nat × Nat)) (c : Nat)
    (hm : endsMonotoneB c ps = true) :
    isPartitionFrom c (learnRangesAux c ps) (lastCursor c ps) := by
  induction ps generalizing c with
  | nil =>
    refine ⟨fun r hr => absurd hr (List.not_mem_nil r), ?_, ?_⟩
    · intro x hlo hhi
      simp only [lastCursor] at hhi
      omega
    · intro i j hi
      simp [learnRangesAux] at hi
  | cons p ps ih =>
    obtain ⟨off, len⟩ := p
    simp only [endsMonotoneB, Bool.and_eq_true, decide_eq_true_eq] at hm
    obtain ⟨hce, hm'⟩ := hm
    obtain ⟨ihA, ihB, ihC⟩ := ih (off + len) hm'
    have hehi : off + len ≤ lastCursor (off + len) ps := le_lastCursor ps _ hm'
    refine ⟨?_, ?_, ?_⟩
    · intro r hr
      rcases List.mem_cons.mp hr with h1 | h2
      · rw [h1]; exact ⟨le_refl c, hehi⟩
      · have := ihA r h2
        exact ⟨le_trans hce this.1, this.2⟩
    · intro x hlo hhi
      by_cases hxe : x < off + len
      · exact ⟨0, by simp [learnRangesAux], by simpa [inRange, learnRangesAux] using ⟨hlo, hxe⟩⟩
      · obtain ⟨i, hilen, hir⟩ := ihB x (by omega) hhi
        refine ⟨i + 1, by simpa [learnRangesAux] using hilen, ?_⟩
        simpa [learnRangesAux, List.getD_cons_succ] using hir
    · intro i j hi hj hij x hxi hxj
      match i, j with
      | 0, 0 => exact hij rfl
      | 0, j + 1 =>
        have hx1 : c ≤ x ∧ x < off + len := by
          simpa [learnRangesAux, inRange] using hxi
        have hj' : j < (learnRangesAux (off + len) ps).length := by
          simpa [learnRangesAux] using hj
        have hmem : (learnRangesAux (off + len) ps).getD j (0, 0) ∈ learnRangesAux (off + len) ps := by
          rw [List.getD_eq_getElem _ _ hj']
          exact List.getElem_mem hj'
        have hcon := ihA _ hmem
        have hxj' : inRange ((learnRangesAux (off + len) ps).getD j (0, 0)) x := by
          simpa [learnRangesAux, List.getD_cons_succ] using hxj
        have : off + len ≤ x := le_trans hcon.1 hxj'.1
        omega
      | i + 1, 0 =>
        have hx1 : c ≤ x ∧ x < off + len := by
          simpa [learnRangesAux, inRange] using hxj
        have hi' : i < (learnRangesAux (off + len) ps).length := by
          simpa [learnRangesAux] using hi
        have hmem : (learnRangesAux (off + len) ps).getD i (0, 0) ∈ learnRangesAux (off + len) ps := by
          rw [List.getD_eq_getElem _ _ hi']
          exact List.getElem_mem hi'
        have hcon := ihA _ hmem
        have hxi' : inRange ((learnRangesAux (off + len) ps).getD i (0, 0)) x := by
          simpa [learnRangesAux, List.getD_cons_succ] using hxi
        have : off + len ≤ x := le_trans hcon.1 hxi'.1
        omega
      | i + 1, j + 1 =>
        have hi' : i < (learnRangesAux (off + len) ps).length := by
          simpa [learnRangesAux] using hi
        have hj' : j < (learnRangesAux (off + len) ps).length := by
          simpa [learnRangesAux] using hj
        refine ihC i j hi' hj' (by omega) x ?_ ?_
        · simpa [learnRangesAux, List.getD_cons_succ] using hxi
        · simpa [learnRangesAux, List.getD_cons_succ] using hxj

/-- C3 amended: for every sequence of pushes the learned ranges chain from 0
(startOffset of range 1 is 0 and each later range starts at the previous range's
end), and when each push's end offset+length is at least the running cursor the
ranges additionally partition the interval from 0 to the final cursor with no gaps
or overlaps.  Without that monotonicity the partition claim fails (see the
counterexample). -/
theorem C3_ranges_chain_and_partition (pushes : List (Nat × Nat)) :
    chainFrom 0 (learnRanges pushes) ∧
    (endsMonotoneB 0 pushes = true →
      isPartition (learnRanges pushes) (lastCursor 0 pushes)) :=
  ⟨chainFrom_learnRangesAux pushes 0,
    fun hm => isPartitionFrom_learnRangesAux pushes 0 hm⟩

/-- Witness for C3 on the two-string scenario: pushes (0,15) then (15,30) give the
ranges (0,15),(15,45), which chain from 0 and partition the interval up to 45. -/
theorem C3_witness :
    chainFrom 0 (learnRanges [(0, 15), (15, 30)]) ∧
    isPartition (learnRanges [(0, 15), (15, 30)]) 45 :=
  ⟨(C3_ranges_chain_and_partition [(0, 15), (15, 30)]).1,
    (C3_ranges_chain_and_partition [(0, 15), (15, 30)]).2 (by decide)⟩

/-- Pushes whose ends decrease, (offset 100, length 10) then (offset 0, length 10),
learn the ranges (0,110),(110,10); the first range sticks out of the interval
[0, 10) bounded by the final cursor, so the learned ranges do not partition it. -/
theorem C3_counterexample :
    ¬ isPartition (learnRanges [(100, 10), (0, 10)]) (lastCursor 0 [(100, 10), (0, 10)]) := by
  intro hp
  have hm : ((0, 110) : Nat × Nat) ∈ learnRanges [(100, 10), (0, 10)] := by decide
  have hx : inRange ((0, 110) : Nat × Nat) 50 := by exact ⟨by omega, by omega⟩
  have h1 := (hp.1 (0, 110) hm).2
  have h2 : lastCursor 0 [(100, 10), (0, 10)] = 10 := by decide
  omega

-- Matching-rule lemmas (claim C5).

lemma matchRangeAux_none (ranges : List (Nat × Nat)) (off len i : Nat) :
    matchRangeAux ranges off len i = none ↔
    ∀ r ∈ ranges, ¬ (r.1 ≤ off ∧ off + len ≤ r.2) := by
  induction ranges generalizing i with
  | nil => simp [matchRangeAux]
  | cons r rs ih =>
    by_cases hr : r.1 ≤ off ∧ off + len ≤ r.2
    · constructor
      · intro hnone
        simp [matchRangeAux, hr] at hnone
      · intro hall
        exact absurd hr (hall r (List.mem_cons_self r rs))
    · constructor
      · intro hnone
        simp only [matchRangeAux, if_neg hr] at hnone
        rw [List.forall_mem_cons]
        exact ⟨hr, (ih (i + 1)).mp hnone⟩
      · intro hall
        simp only [matchRangeAux, if_neg hr]
        exact (ih (i + 1)).mpr (fun r2 hr2 => hall r2 (List.mem_cons_of_mem _ hr2))

lemma matchRangeAux_some_spec (ranges : List (Nat × Nat)) (off len : Nat) :
    ∀ i j, matchRangeAux ranges off len i = some j →
    i ≤ j ∧ j - i < ranges.length ∧
    ((ranges.getD (j - i) (0, 0)).1 ≤ off ∧ off + len ≤ (ranges.getD (j - i) (0, 0)).2) ∧
    ∀ m, m < j - i →
      ¬ ((ranges.getD m (0, 0)).1 ≤ off ∧ off + len ≤ (ranges.getD m (0, 0)).2) := by
  induction ranges with
  | nil => intro i j h; simp [matchRangeAux] at h
  | cons r rs ih =>
    intro i j h
    simp only [matchRangeAux] at h
    by_cases hr : r.1 ≤ off ∧ off + len ≤ r.2
    · rw [if_pos hr] at h
      have hij := Option.some.inj h
      subst hij
      refine ⟨le_refl i, by simp, by simpa using hr, ?_⟩
      intro m hm
      exact absurd hm (by omega)
    · rw [if_neg hr] at h
      obtain ⟨hij, hlen, hfit, hmin⟩ := ih (i + 1) j h
      have hji : j - i = (j - (i + 1)) + 1 := by omega
      refine ⟨by omega, ?_, ?_, ?_⟩
      · simp only [List.length_cons]; omega
      · rw [hji, List.getD_cons_succ]; exact hfit
      · intro m hm
        match m with
        | 0 => simpa using hr
        | m + 1 =>
          rw [List.getD_cons_succ]
          exact hmin m (by omega)

/-- While collecting and past the leading-empty phase, one decoded packet is exactly
one Frame Assembler step: range learning and finalization are bypassed. -/
lemma processHeader_collecting (st : CaptureState) (h : DDPHeader) (now : Nat)
    (hc : st.collecting = true) (hbeg : st.isBeginning = false) :
    processHeader st h now = collectStep st h now := by
  simp [processHeader, pushStage, finalizeStep, hc, hbeg, Except.bind]

lemma writeSlice_getElem? (buf : List Nat) (off : Nat) (p : List Nat)
    (hb : off + p.length ≤ buf.length) (m : Nat) :
    (writeSlice buf off p)[m]? =
      if m < off then buf[m]?
      else if m < off + p.length then p[m - off]?
      else buf[m]? := by
  have hto : min off buf.length = off := by omega
  simp only [writeSlice, List.getElem?_append, List.getElem?_take, List.getElem?_drop,
    List.length_append, List.length_take, hto]
  split_ifs <;> first
    | rfl
    | (exfalso; omega)
    | (congr 1; omega)

lemma writeSlice_getD (buf : List Nat) (off : Nat) (p : List Nat)
    (hb : off + p.length ≤ buf.length) :
    (∀ k, k < p.length → (writeSlice buf off p).getD (off + k) 0 = p.getD k 0) ∧
    (∀ m, m < off → (writeSlice buf off p).getD m 0 = buf.getD m 0) ∧
    (∀ m, off + p.length ≤ m → (writeSlice buf off p).getD m 0 = buf.getD m 0) := by
  refine ⟨?_, ?_, ?_⟩
  · intro k hk
    rw [List.getD_eq_getElem?_getD, List.getD_eq_getElem?_getD,
      writeSlice_getElem? buf off p hb]
    rw [if_neg (by omega), if_pos (by omega)]
    have hix : off + k - off = k := by omega
    rw [hix]
  · intro m hm
    rw [List.getD_eq_getElem?_getD, List.getD_eq_getElem?_getD,
      writeSlice_getElem? buf off p hb, if_pos hm]
  · intro m hm
    rw [List.getD_eq_getElem?_getD, List.getD_eq_getElem?_getD,
      writeSlice_getElem? buf off p hb, if_neg (by omega), if_neg (by omega)]

/-- C5: during capture a packet is accepted by the first learned range r (ascending
assignment order) with offset ≥ r.start and offset+length ≤ r.end; on acceptance the
payload is copied into that range's buffer at relative offset offset - r.start (bytes
outside the copied window untouched) and that buffer's filled count grows by length;
a packet fitting no range entirely leaves the state unchanged. -/
theorem C5_matching_rule (st : CaptureState) (h : DDPHeader) (now : Nat)
    (hc : st.collecting = true) (hbeg : st.isBeginning = false) :
    (matchRange st.stringsRanges h.offset h.length = none ↔
      ∀ r ∈ st.stringsRanges, ¬ (r.1 ≤ h.offset ∧ h.offset + h.length ≤ r.2)) ∧
    (matchRange st.stringsRanges h.offset h.length = none →
      processHeader st h now = .ok st) ∧
    (∀ i, matchRange st.stringsRanges h.offset h.length = some i →
      i < st.stringsRanges.length ∧
      ((st.stringsRanges.getD i (0, 0)).1 ≤ h.offset ∧
        h.offset + h.length ≤ (st.stringsRanges.getD i (0, 0)).2) ∧
      (∀ m, m < i → ¬ ((st.stringsRanges.getD m (0, 0)).1 ≤ h.offset ∧
        h.offset + h.length ≤ (st.stringsRanges.getD m (0, 0)).2)) ∧
      processHeader st h now =
        (if allFull (writeStage st i h).filledCount (writeStage st i h).buffers
          then emitFrame (writeStage st i h) now else .ok (writeStage st i h)) ∧
      (writeStage st i h).filledCount =
        st.filledCount.set i (st.filledCount.getD i 0 + h.length) ∧
      (writeStage st i h).buffers =
        st.buffers.set i (writeSlice (st.buffers.getD i [])
          (h.offset - (st.stringsRanges.getD i (0, 0)).1) h.payload)) ∧
    (∀ buf off p, off + p.length ≤ buf.length →
      (∀ k, k < p.length → (writeSlice buf off p).getD (off + k) 0 = p.getD k 0) ∧
      (∀ m, m < off → (writeSlice buf off p).getD m 0 = buf.getD m 0) ∧
      (∀ m, off + p.length ≤ m → (writeSlice buf off p).getD m 0 = buf.getD m 0)) := by
  refine ⟨matchRangeAux_none _ _ _ 0, ?_, ?_, fun buf off p hb => writeSlice_getD buf off p hb⟩
  · intro hnone
    rw [processHeader_collecting st h now hc hbeg]
    simp only [collectStep, matchRange] at hnone ⊢
    rw [hnone]
  · intro i hi
    obtain ⟨h0, hlen, hfit, hmin⟩ := matchRangeAux_some_spec st.stringsRanges _ _ 0 i hi
    rw [Nat.sub_zero] at hlen hfit hmin
    refine ⟨hlen, hfit, fun m hm => hmin m hm, ?_, rfl, rfl⟩
    rw [processHeader_collecting st h now hc hbeg]
    simp only [collectStep, matchRange] at hi ⊢
    rw [hi]

/-- Witness for C5 on Scenario B: the ranges (0,15),(15,45) reject the packet with
offset 10, length 10 that spans their boundary, and processing it mutates nothing. -/
theorem C5_witness :
    matchRange scenarioBState.stringsRanges scenarioBHeader.offset scenarioBHeader.length =
      none ∧
    processHeader scenarioBState scenarioBHeader 0 = .ok scenarioBState := by
  have T := C5_matching_rule scenarioBState scenarioBHeader 0 rfl rfl
  have hn : matchRange scenarioBState.stringsRanges scenarioBHeader.offset
      scenarioBHeader.length = none := T.1.mpr (by decide)
  exact ⟨hn, T.2.1 hn⟩

/-- Witness for C6: a datagram claiming 9 payload bytes but delivering one is
discarded with only the diagnostic packet counter moving. -/
theorem C6_witness :
    processDatagram (initState 1 none) [0, 0, 0, 0, 0, 0, 0, 0, 0, 9, 1] 7 =
      .ok { initState 1 none with packetsSeen := 1 } :=
  (C6_decode_characterization [0, 0, 0, 0, 0, 0, 0, 0, 0, 9, 1]).2.2.2.2
    (initState 1 none) 7 .PayloadLengthMismatch rfl (by decide)

/-- C9: in the leading-empty phase of a collecting session, a packet whose payload is
all zero bytes is counted and discarded without reaching the Frame Assembler (frame
count, start time, buffers and output untouched); the first packet with a non-zero
byte sets the session start time and the last-frame time to now, leaves the
leading-empty phase, and that same packet is handed to the Frame Assembler,
defining timestamp zero. -/
theorem C9_leading_empty_skip (st : CaptureState) (h : DDPHeader) (data : List Nat)
    (now : Nat) (hc : st.collecting = true) (hbeg : st.isBeginning = true)
    (hterm : st.terminated = false) (hd : decodeDatagram data = .ok h) :
    (isEmptyBytes h.payload = true →
      processDatagram st data now =
        .ok { st with packetsSeen := st.packetsSeen + 1, emptyFrames := st.emptyFrames + 1 }) ∧
    (isEmptyBytes h.payload = false →
      processDatagram st data now =
        collectStep { st with
          packetsSeen := st.packetsSeen + 1
          isBeginning := false
          startTime := some now
          lastFrameTime := some now } h now) := by
  constructor
  · intro hemp
    simp [processDatagram, hterm, hd, processHeader, pushStage, finalizeStep, hc, hbeg, hemp,
      Except.bind]
  · intro hemp
    simp [processDatagram, hterm, hd, processHeader, pushStage, finalizeStep, hc, hbeg, hemp,
      Except.bind]

/-- Witness for C9: in the leading-empty phase, a 3-byte all-zero payload is counted
and discarded. -/
theorem C9_witness :
    processDatagram oneStringState [0, 0, 0, 0, 0, 0, 0, 0, 0, 3, 0, 0, 0] 5 =
      .ok { oneStringState with packetsSeen := 2, emptyFrames := 1 } :=
  (C9_leading_empty_skip oneStringState
    { flags1 := 0, flags2 := 0, dataType := 0, stringId := 0, offset := 0, length := 3,
      hasTimecode := false, timecode := none, payload := [0, 0, 0] }
    [0, 0, 0, 0, 0, 0, 0, 0, 0, 3, 0, 0, 0] 5 rfl rfl rfl (by decide)).1 (by decide)

/-- C7 amended: the idle-timeout exit lives only in the socket-timeout branch and
fires exactly when the session is collecting, past the leading-empty phase, and at
least 5000 ms have passed since last_frame_time — the time of the last completed
frame or, when no frame has completed yet, of the first non-empty packet.  It does
not require a completed frame, and it changes nothing but the terminated flag. -/
theorem C7_idle_timeout_amended (st : CaptureState) (now : Nat)
    (hterm : st.terminated = false) :
    ((timeoutStep st now).terminated = true ↔
      (st.collecting = true ∧ st.isBeginning = false ∧
        ∃ t, st.lastFrameTime = some t ∧ 5000 ≤ now - t)) ∧
    (timeoutStep st now).framesWritten = st.framesWritten ∧
    (timeoutStep st now).output = st.output := by
  refine ⟨⟨?_, ?_⟩, ?_, ?_⟩
  · intro hfire
    by_cases hcnd : (st.collecting && !st.isBeginning && st.lastFrameTime.isSome
        && decide (5000 ≤ now - st.lastFrameTime.getD 0)) = true
    · simp only [Bool.and_eq_true, Bool.not_eq_true', Option.isSome_iff_exists,
        decide_eq_true_eq] at hcnd
      obtain ⟨⟨⟨hcol, hbeg⟩, ⟨t, ht⟩⟩, htime⟩ := hcnd
      exact ⟨hcol, hbeg, t, ht, by simpa [ht] using htime⟩
    · exfalso
      simp [timeoutStep, hterm, hcnd] at hfire
  · rintro ⟨hcol, hbeg, t, ht, htime⟩
    have hcnd : (st.collecting && !st.isBeginning && st.lastFrameTime.isSome
        && decide (5000 ≤ now - st.lastFrameTime.getD 0)) = true := by
      simp [hcol, hbeg, ht, htime]
    simp [timeoutStep, hterm, hcnd]
  · simp only [timeoutStep, hterm]
    split_ifs <;> rfl
  · simp only [timeoutStep, hterm]
    split_ifs <;> rfl

/-- Witness for C7 (amended): a collecting state whose last-frame time is 0 fires the
idle timeout at 6000 ms even though no frame was ever written. -/
theorem C7_amended_witness :
    (timeoutStep overfilledState 6000).terminated = true ∧
    overfilledState.framesWritten = 0 :=
  ⟨(C7_idle_timeout_amended overfilledState 6000 rfl).1.mpr
    ⟨rfl, rfl, 0, rfl, by decide⟩, rfl⟩

-- Fill-count invariant lemmas (claim C2).

lemma le_writeSlice_length (buf : List Nat) (off : Nat) (p : List Nat) :
    buf.length ≤ (writeSlice buf off p).length := by
  simp only [writeSlice, List.length_append, List.length_take, List.length_drop]
  omega

/-- C2 amended: filled counts are naturals, so 0 ≤ filledBytes always holds, and the
completion test of line 196 is exactly equality of every filled count with its own
buffer length; the upper bound filledBytes ≤ len(data) is NOT invariant in general —
overlapping accepted writes double-count (see the counterexample) — but it is
preserved by any accepted write whose length fits the remaining count, and the
post-frame reset re-establishes filledBytes = 0. -/
theorem C2_fill_invariant_amended :
    (∀ filled bufs, allFull filled bufs = true ↔
      ∀ i, i < bufs.length → filled.getD i 0 = (bufs.getD i []).length) ∧
    (∀ st : CaptureState, ∀ i : Nat, ∀ h : DDPHeader, invariantB st = true →
      st.filledCount.getD i 0 + h.length ≤ (st.buffers.getD i []).length →
      invariantB (writeStage st i h) = true) ∧
    (∀ st : CaptureState, invariantB (resetBuffers st) = true ∧
      ∀ i, (resetBuffers st).filledCount.getD i 0 = 0) := by
  refine ⟨?_, ?_, ?_⟩
  · intro filled bufs
    simp [allFull, List.all_eq_true, List.mem_range]
  · intro st i h hinv hfit
    simp only [invariantB, List.all_eq_true, List.mem_range, decide_eq_true_eq] at hinv ⊢
    intro j hj
    have hLb : (writeStage st i h).buffers.length = st.buffers.length := by
      simp [writeStage, List.length_set]
    rw [hLb] at hj
    by_cases hij : i = j
    · subst hij
      by_cases hfl : i < st.filledCount.length
      · have h1 : (writeStage st i h).filledCount.getD i 0 =
            st.filledCount.getD i 0 + h.length := by
          simp [writeStage, List.getD_eq_getElem?_getD, List.getElem?_set_self hfl]
        have h2 : (writeStage st i h).buffers.getD i [] =
            writeSlice (st.buffers.getD i [])
              (h.offset - (st.stringsRanges.getD i (0, 0)).1) h.payload := by
          simp [writeStage, List.getD_eq_getElem?_getD, List.getElem?_set_self hj]
        rw [h1, h2]
        exact le_trans hfit (le_writeSlice_length _ _ _)
      · have h1 : (writeStage st i h).filledCount.getD i 0 = 0 := by
          simp only [writeStage]
          rw [List.getD_eq_getElem?_getD,
            List.getElem?_eq_none (by simp only [List.length_set]; omega)]
          rfl
        rw [h1]
        exact Nat.zero_le _
    · have h1 : (writeStage st i h).filledCount.getD j 0 = st.filledCount.getD j 0 := by
        simp [writeStage, List.getD_eq_getElem?_getD, List.getElem?_set_ne hij]
      have h2 : (writeStage st i h).buffers.getD j [] = st.buffers.getD j [] := by
        simp [writeStage, List.getD_eq_getElem?_getD, List.getElem?_set_ne hij]
      rw [h1, h2]
      exact hinv j hj
  · intro st
    have hz : ∀ i, (resetBuffers st).filledCount.getD i 0 = 0 := by
      intro i
      simp only [resetBuffers]
      rw [List.getD_eq_getElem?_getD, List.getElem?_map]
      cases st.filledCount[i]? <;> rfl
    refine ⟨?_, hz⟩
    simp only [invariantB, List.all_eq_true, List.mem_range, decide_eq_true_eq]
    intro j hj
    rw [hz j]
    exact Nat.zero_le _

/-- Witness for C2 (amended): the completion test on a full 6-byte buffer, invariant
preservation for an in-bounds 4-byte write into the fresh single-string state, and
the reset of the over-counted state back to zero. -/
theorem C2_amended_witness :
    allFull [6] [[1, 1, 1, 1, 1, 1]] = true ∧
    invariantB (writeStage oneStringState 0
      { flags1 := 0, flags2 := 0, dataType := 0, stringId := 0, offset := 0, length := 4,
        hasTimecode := false, timecode := none, payload := [1, 0, 0, 0] }) = true ∧
    invariantB (resetBuffers overfilledState) = true ∧
    (resetBuffers overfilledState).filledCount.getD 0 0 = 0 :=
  ⟨(C2_fill_invariant_amended.1 [6] [[1, 1, 1, 1, 1, 1]]).mpr (by decide),
    C2_fill_invariant_amended.2.1 oneStringState 0
      { flags1 := 0, flags2 := 0, dataType := 0, stringId := 0, offset := 0, length := 4,
        hasTimecode := false, timecode := none, payload := [1, 0, 0, 0] }
      (by decide) (by decide),
    (C2_fill_invariant_amended.2.2 overfilledState).1,
    (C2_fill_invariant_amended.2.2 overfilledState).2 0⟩

-- Discovery finalization lemmas (claim C8).

lemma fdiv_natCast_three (m : Nat) : Int.fdiv (m : Int) 3 = ((m / 3 : Nat) : Int) := by
  rw [Int.fdiv_eq_ediv _ (by norm_num)]
  norm_num

lemma rangeLens_nonneg_iff (R : List (Nat × Nat)) :
    (rangeLens R).all (fun l => decide (0 ≤ l)) = true ↔ ∀ r ∈ R, r.1 ≤ r.2 := by
  simp only [rangeLens, List.all_eq_true, List.mem_map, decide_eq_true_eq]
  constructor
  · intro hh r hr
    have := hh ((r.2 : Int) - (r.1 : Int)) ⟨r, hr, rfl⟩
    omega
  · rintro hh x ⟨r, hr, rfl⟩
    have := hh r hr
    omega

lemma foldl_max_natCast (R : List (Nat × Nat)) (hpos : ∀ r ∈ R, r.1 ≤ r.2) :
    ∀ a : Nat,
      List.foldl max (a : Int) (R.map (fun r => (r.2 : Int) - (r.1 : Int))) =
        ((List.foldl max a (R.map (fun r => r.2 - r.1)) : Nat) : Int) := by
  induction R with
  | nil => intro a; rfl
  | cons r rs ih =>
    intro a
    have hr : r.1 ≤ r.2 := hpos r (List.mem_cons_self r rs)
    simp only [List.map_cons, List.foldl_cons]
    rw [show ((r.2 : Int) - (r.1 : Int)) = ((r.2 - r.1 : Nat) : Int) from
      (Nat.cast_sub hr).symm, ← Nat.cast_max]
    exact ih (fun x hx => hpos x (List.mem_cons_of_mem _ hx)) (max a (r.2 - r.1))

lemma maxIntList_of_nonneg (R : List (Nat × Nat)) (hne : R ≠ [])
    (hpos : ∀ r ∈ R, r.1 ≤ r.2) :
    maxIntList (rangeLens R) =
      some (((R.map (fun r => r.2 - r.1)).foldl max 0 : Nat) : Int) := by
  obtain ⟨r, R2, rfl⟩ : ∃ r R2, R = r :: R2 := by
    cases R with
    | nil => exact absurd rfl hne
    | cons a l => exact ⟨a, l, rfl⟩
  have hr : r.1 ≤ r.2 := hpos r (List.mem_cons_self _ _)
  simp only [rangeLens, List.map_cons, maxIntList]
  rw [show ((r.2 : Int) - (r.1 : Int)) = ((r.2 - r.1 : Nat) : Int) from
    (Nat.cast_sub hr).symm]
  rw [foldl_max_natCast R2 (fun x hx => hpos x (List.mem_cons_of_mem _ hx)) (r.2 - r.1)]
  simp only [List.foldl_cons, Nat.zero_max]

lemma maxPixelsOf_eq_natDiv (R : List (Nat × Nat)) (hne : R ≠ [])
    (hpos : ∀ r ∈ R, r.1 ≤ r.2) :
    maxPixelsOf R = (((R.map (fun r => r.2 - r.1)).foldl max 0) / 3 : Nat) := by
  rw [maxPixelsOf, maxIntList_of_nonneg R hne hpos]
  simp only [Option.getD_some]
  exact fdiv_natCast_three _

/-- C8 amended: when the number of learned ranges reaches the configured target S
(at least 1), every learned range has end ≥ start, and the derived pixel count fits
16 bits, finalization emits the 2-byte little-endian maxPixelsPerString header,
where maxPixelsPerString is the maximal range length divided by 3 with integer floor
division, sets maxBytesPerString to 3 times it, allocates one zeroed buffer per
range sized to that range's own length with a zero filled count, starts collecting
with a zero frame counter, and a second finalization is a no-op (the header is
emitted exactly once).  Without the two side conditions the script instead crashes
(see the counterexample). -/
theorem C8_finalize_amended (st : CaptureState)
    (hc : st.collecting = false)
    (hS : 1 ≤ st.numberOfStrings)
    (hlen : st.numberOfStrings ≤ st.stringsRanges.length)
    (hpos : (rangeLens st.stringsRanges).all (fun l => decide (0 ≤ l)) = true)
    (hfit : maxPixelsOf st.stringsRanges < 65536) :
    finalizeStep st = .ok { st with
      output := natToLE 2 (maxPixelsOf st.stringsRanges).toNat
      buffers := st.stringsRanges.map (fun r => List.replicate (r.2 - r.1) 0)
      filledCount := st.stringsRanges.map (fun _ => 0)
      maxBytes := some ((maxPixelsOf st.stringsRanges).toNat * 3)
      collecting := true
      framesWritten := 0 } ∧
    (maxPixelsOf st.stringsRanges).toNat =
      ((st.stringsRanges.map (fun r => r.2 - r.1)).foldl max 0) / 3 ∧
    finalizeStep { st with
      output := natToLE 2 (maxPixelsOf st.stringsRanges).toNat
      buffers := st.stringsRanges.map (fun r => List.replicate (r.2 - r.1) 0)
      filledCount := st.stringsRanges.map (fun _ => 0)
      maxBytes := some ((maxPixelsOf st.stringsRanges).toNat * 3)
      collecting := true
      framesWritten := 0 } = .ok { st with
      output := natToLE 2 (maxPixelsOf st.stringsRanges).toNat
      buffers := st.stringsRanges.map (fun r => List.replicate (r.2 - r.1) 0)
      filledCount := st.stringsRanges.map (fun _ => 0)
      maxBytes := some ((maxPixelsOf st.stringsRanges).toNat * 3)
      collecting := true
      framesWritten := 0 } := by
  have hne : st.stringsRanges ≠ [] := by
    intro hnil
    rw [hnil] at hlen
    simp at hlen
    omega
  have hpos' : ∀ r ∈ st.stringsRanges, r.1 ≤ r.2 := (rangeLens_nonneg_iff _).mp hpos
  have hmax := maxIntList_of_nonneg st.stringsRanges hne hpos'
  have hpix := maxPixelsOf_eq_natDiv st.stringsRanges hne hpos'
  have hcond : st.collecting = false ∧ st.numberOfStrings ≤ st.stringsRanges.length :=
    ⟨hc, hlen⟩
  have hanyneg : (rangeLens st.stringsRanges).any (fun l => decide (l < 0)) = false := by
    rw [← Bool.not_eq_true, List.any_eq_true]
    rintro ⟨x, hx, hxneg⟩
    have hxpos := List.all_eq_true.mp hpos x hx
    simp only [decide_eq_true_eq] at hxpos hxneg
    omega
  have hdiv : Int.fdiv (((st.stringsRanges.map (fun r => r.2 - r.1)).foldl max 0 : Nat) : Int) 3 =
      maxPixelsOf st.stringsRanges := by
    rw [hpix]
    exact fdiv_natCast_three _
  have hnonneg : (0 : Int) ≤ maxPixelsOf st.stringsRanges := by
    rw [hpix]
    exact Int.natCast_nonneg _
  refine ⟨?_, ?_, ?_⟩
  · rw [finalizeStep, if_pos hcond, hmax]
    simp only [hdiv]
    rw [if_neg (by omega), if_neg (by rw [hanyneg]; exact Bool.false_ne_true)]
  · rw [hpix]
    omega
  · rw [finalizeStep]
    rw [if_neg (by rintro ⟨hfalse, _⟩; simp at hfalse)]

/-- Witness for C8 (amended) on Scenario A: a single learned range (0,30) finalizes
to maxPixelsPerString 10, header bytes [10, 0], one 30-byte zeroed buffer and
maxBytesPerString 30. -/
theorem C8_amended_witness :
    finalizeStep scenarioAState = .ok { scenarioAState with
      output := [10, 0]
      buffers := [List.replicate 30 0]
      filledCount := [0]
      maxBytes := some 30
      collecting := true
      framesWritten := 0 } ∧
    (maxPixelsOf [(0, 30)]).toNat = 10 :=
  ⟨(C8_finalize_amended scenarioAState rfl (by decide) (by decide) (by decide) (by decide)).1,
    (C8_finalize_amended scenarioAState rfl (by decide) (by decide) (by decide) (by decide)).2.1⟩

-- Exception-freedom lemmas (claim C1).

lemma pushStage_projections (st : CaptureState) (h : DDPHeader) :
    (pushStage st h).collecting = st.collecting ∧
    (pushStage st h).numberOfStrings = st.numberOfStrings ∧
    (pushStage st h).startTime = st.startTime ∧
    (pushStage st h).isBeginning = st.isBeginning := by
  dsimp only [pushStage]
  split_ifs <;> exact ⟨rfl, rfl, rfl, rfl⟩

lemma pushStage_packetsSeen_irrel (st : CaptureState) (n : Nat) (h : DDPHeader) :
    (pushStage { st with packetsSeen := n } h).stringsRanges =
      (pushStage st h).stringsRanges := by
  dsimp only [pushStage]
  split_ifs <;> rfl

lemma finalizeStep_ok (st : CaptureState)
    (hsafe : st.collecting = false → st.numberOfStrings ≤ st.stringsRanges.length →
      noFinalizeCrash st.stringsRanges = true) :
    ∃ st2, finalizeStep st = .ok st2 ∧ st2.startTime = st.startTime ∧
      st2.isBeginning = st.isBeginning ∧ st2.secondsToCapture = st.secondsToCapture := by
  by_cases hcond : st.collecting = false ∧ st.numberOfStrings ≤ st.stringsRanges.length
  · have hnc := hsafe hcond.1 hcond.2
    rw [noFinalizeCrash] at hnc
    rw [finalizeStep, if_pos hcond]
    cases hM : maxIntList (rangeLens st.stringsRanges) with
    | none =>
      rw [hM] at hnc
      simp at hnc
    | some m =>
      rw [hM] at hnc
      simp only [Bool.and_eq_true, decide_eq_true_eq] at hnc
      obtain ⟨⟨hge, hlt⟩, hall⟩ := hnc
      have hany : ¬ ((rangeLens st.stringsRanges).any (fun l => decide (l < 0)) = true) := by
        rw [List.any_eq_true]
        rintro ⟨x, hx, hxn⟩
        have hxp := List.all_eq_true.mp hall x hx
        simp only [decide_eq_true_eq] at hxp hxn
        omega
      simp only [hM]
      rw [if_neg (by omega), if_neg hany]
      exact ⟨_, rfl, rfl, rfl, rfl⟩
  · rw [finalizeStep, if_neg hcond]
    exact ⟨st, rfl, rfl, rfl, rfl⟩

lemma emitFrame_ok (st : CaptureState) (now : Nat)
    (htime : now - st.startTime.getD 0 < 4294967296) :
    ∃ st2, emitFrame st now = .ok st2 := by
  simp only [emitFrame]
  rw [if_neg (by omega)]
  split
  · split
    · exact ⟨_, rfl⟩
    · exact ⟨_, rfl⟩
  · exact ⟨_, rfl⟩

lemma collectStep_ok (st : CaptureState) (h : DDPHeader) (now : Nat)
    (htime : now - st.startTime.getD 0 < 4294967296) :
    ∃ st2, collectStep st h now = .ok st2 := by
  rw [collectStep]
  cases hm : matchRange st.stringsRanges h.offset h.length with
  | none => exact ⟨st, rfl⟩
  | some i =>
    show ∃ st2,
      (if allFull (writeStage st i h).filledCount (writeStage st i h).buffers = true
        then emitFrame (writeStage st i h) now else .ok (writeStage st i h)) = .ok st2
    by_cases hf : allFull (writeStage st i h).filledCount (writeStage st i h).buffers = true
    · rw [if_pos hf]
      exact emitFrame_ok (writeStage st i h) now htime
    · rw [if_neg hf]
      exact ⟨_, rfl⟩

lemma processHeader_ok (st : CaptureState) (h : DDPHeader) (now : Nat)
    (hsafe : st.collecting = false →
      st.numberOfStrings ≤ (pushStage st h).stringsRanges.length →
      noFinalizeCrash (pushStage st h).stringsRanges = true)
    (htime : now - st.startTime.getD 0 < 4294967296) :
    ∃ st2, processHeader st h now = .ok st2 := by
  obtain ⟨hpc, hpn, hpt, hpb⟩ := pushStage_projections st h
  obtain ⟨st2, hfin, ht2, hb2, hs2⟩ := finalizeStep_ok (pushStage st h)
    (fun hcol hlen => hsafe (hpc ▸ hcol) (hpn ▸ hlen))
  rw [processHeader, hfin]
  simp only [Except.bind]
  by_cases hemp : (st2.isBeginning && isEmptyBytes h.payload) = true
  · rw [if_pos hemp]
    exact ⟨_, rfl⟩
  · rw [if_neg hemp]
    have hst2time : st2.startTime = st.startTime := by rw [ht2, hpt]
    by_cases hbeg : st2.isBeginning = true
    · rw [if_pos hbeg]
      dsimp only
      by_cases hcol : st2.collecting = true
      · rw [if_pos hcol]
        apply collectStep_ok _ h now
        simp
      · rw [if_neg hcol]
        exact ⟨_, rfl⟩
    · rw [if_neg hbeg]
      by_cases hcol : st2.collecting = true
      · rw [if_pos hcol]
        exact collectStep_ok _ h now (by rw [hst2time]; exact htime)
      · rw [if_neg hcol]
        exact ⟨_, rfl⟩

/-- C1 amended: processing a datagram raises no unhandled exception provided that,
if this packet completes discovery, every learned range has end at least start and
the derived pixel count fits 16 bits (finalizeSafe), and the elapsed time since the
session start stays below 2^32 ms.  Those side conditions are genuine: without them
buffer allocation or a to_bytes call crashes (see the counterexample). -/
theorem C1_no_crash_amended (st : CaptureState) (data : List Nat) (now : Nat)
    (hsafe : finalizeSafe st data = true)
    (htime : now - st.startTime.getD 0 < 4294967296) :
    ∃ st2, processDatagram st data now = .ok st2 := by
  by_cases hterm : st.terminated = true
  · rw [processDatagram, if_pos hterm]
    exact ⟨st, rfl⟩
  · rw [processDatagram, if_neg hterm]
    cases hd : decodeDatagram data with
    | error e => cases e <;> exact ⟨_, rfl⟩
    | ok h =>
      simp only [finalizeSafe, hd] at hsafe
      apply processHeader_ok { st with packetsSeen := st.packetsSeen + 1 } h now
      · intro hcol hlen
        rw [pushStage_packetsSeen_irrel st (st.packetsSeen + 1) h] at hlen ⊢
        dsimp only at hcol hlen
        by_cases hif : (!st.collecting &&
            decide (st.numberOfStrings ≤ (pushStage st h).stringsRanges.length)) = true
        · rw [if_pos hif] at hsafe
          exact hsafe
        · exfalso
          apply hif
          simp only [Bool.and_eq_true, Bool.not_eq_true', decide_eq_true_eq]
          exact ⟨hcol, hlen⟩
      · exact htime

/-- Witness for C1 (amended): a well-formed push packet (offset 0, length 3, non-zero
payload) processed from the initial single-string state crashes nothing. -/
theorem C1_amended_witness :
    (processDatagram (initState 1 none) [1, 0, 0, 0, 0, 0, 0, 0, 0, 3, 1, 2, 3] 0).isOk =
      true := by
  obtain ⟨st2, hst2⟩ := C1_no_crash_amended (initState 1 none)
    [1, 0, 0, 0, 0, 0, 0, 0, 0, 3, 1, 2, 3] 0 (by decide) (by decide)
  rw [hst2]
  rfl

/-- C4 amended: when an accepted write makes every buffer full, exactly one frame
record is appended to the output — the elapsed milliseconds since the first
non-empty packet as 4 little-endian bytes, then each buffer in ascending assigned-id
order rendered to exactly maxBytesPerString bytes (unchanged when exactly that long,
zero-padded on the right when shorter, truncated when longer) — and afterwards every
buffer is zeroed and every filled count reset to 0, UNLESS the configured duration
limit is reached at this emission, in which case the loop returns with the buffers
left as written.  (The elapsed time must fit 32 bits, else to_bytes raises.) -/
theorem C4_frame_emission_amended (st : CaptureState) (h : DDPHeader) (now t0 i : Nat)
    (hc : st.collecting = true) (hbeg : st.isBeginning = false)
    (ht0 : st.startTime = some t0) (htime : now - t0 < 4294967296)
    (hm : matchRange st.stringsRanges h.offset h.length = some i)
    (hf : allFull (writeStage st i h).filledCount (writeStage st i h).buffers = true) :
    (processHeader st h now =
      (let emitted := { writeStage st i h with
          output := st.output ++ natToLE 4 (now - t0) ++
            ((writeStage st i h).buffers.map (padTo st.maxBytes)).flatten
          lastFrameTime := some now
          framesWritten := st.framesWritten + 1 };
        match st.secondsToCapture with
        | some limit =>
            if 1000 * limit ≤ now - t0 then .ok { emitted with terminated := true }
            else .ok (resetBuffers emitted)
        | none => .ok (resetBuffers emitted))) ∧
    (∀ m : Nat, ∀ b : List Nat, b.length = m → padTo (some m) b = b) ∧
    (∀ m : Nat, ∀ b : List Nat, b.length < m →
      padTo (some m) b = b ++ List.replicate (m - b.length) 0) ∧
    (∀ m : Nat, ∀ b : List Nat, m < b.length → padTo (some m) b = b.take m) ∧
    (∀ m : Nat, ∀ b : List Nat, (padTo (some m) b).length = m) ∧
    (∀ x : CaptureState, ∀ j k : Nat,
      (resetBuffers x).filledCount.getD j 0 = 0 ∧
      ((resetBuffers x).buffers.getD j []).getD k 0 = 0) := by
  refine ⟨?_, ?_, ?_, ?_, ?_, ?_⟩
  · rw [processHeader_collecting st h now hc hbeg]
    simp only [collectStep, hm]
    rw [if_pos hf]
    simp only [emitFrame]
    rw [show (writeStage st i h).startTime = some t0 from ht0]
    simp only [Option.getD_some]
    rw [if_neg (by omega)]
    rfl
  · intro m b hb
    simp only [padTo]
    rw [if_neg (by omega), ← hb, List.take_length]
  · intro m b hb
    simp only [padTo]
    rw [if_pos hb]
  · intro m b hb
    simp only [padTo]
    rw [if_neg (by omega)]
  · intro m b
    simp only [padTo]
    split_ifs with hcase
    · simp only [List.length_append, List.length_replicate]
      omega
    · simp only [List.length_take]
      omega
  · intro x j k
    constructor
    · simp only [resetBuffers]
      rw [List.getD_eq_getElem?_getD, List.getElem?_map]
      cases x.filledCount[j]? <;> rfl
    · simp only [resetBuffers]
      rw [List.getD_eq_getElem?_getD
        (List.map (fun b => List.replicate b.length 0) x.buffers) j [], List.getElem?_map]
      cases hx : x.buffers[j]? with
      | none => rfl
      | some b =>
        show (List.replicate b.length 0).getD k 0 = 0
        rw [List.getD_eq_getElem?_getD, List.getElem?_replicate]
        split_ifs <;> rfl

/-- Witness for C4 (amended): a full 6-byte write at 1000 ms emits the record
[232,3,0,0] ++ payload and resets the buffer and the filled count. -/
theorem C4_amended_witness :
    processHeader
      { oneStringState with
        isBeginning := false
        startTime := some 0
        lastFrameTime := some 0 }
      { flags1 := 0, flags2 := 0, dataType := 0, stringId := 0, offset := 0, length := 6,
        hasTimecode := false, timecode := none, payload := [9, 8, 7, 6, 5, 4] } 1000 =
      .ok { oneStringState with
        isBeginning := false
        startTime := some 0
        lastFrameTime := some 1000
        framesWritten := 1
        output := [2, 0, 232, 3, 0, 0, 9, 8, 7, 6, 5, 4] } :=
  (C4_frame_emission_amended
    { oneStringState with
      isBeginning := false
      startTime := some 0
      lastFrameTime := some 0 }
    { flags1 := 0, flags2 := 0, dataType := 0, stringId := 0, offset := 0, length := 6,
      hasTimecode := false, timecode := none, payload := [9, 8, 7, 6, 5, 4] }
    1000 0 0 rfl rfl rfl (by decide) (by decide) (by decide)).1

-- Overflow-blocks-frames lemmas (claim C10).

lemma writeSlice_length_of_le (buf : List Nat) (off : Nat) (p : List Nat)
    (hb : off + p.length ≤ buf.length) :
    (writeSlice buf off p).length = buf.length := by
  simp only [writeSlice, List.length_append, List.length_take, List.length_drop]
  omega

lemma decode_payload_length (data : List Nat) (h : DDPHeader)
    (hd : decodeDatagram data = .ok h) : h.payload.length = h.length := by
  rw [decodeDatagram_closed] at hd
  by_cases h10 : data.length < 10
  · rw [if_pos h10] at hd
    cases hd
  · rw [if_neg h10] at hd
    by_cases htc14 : Nat.testBit (data.getD 0 0) 4 = true ∧ data.length < 14
    · rw [if_pos htc14] at hd
      cases hd
    · rw [if_neg htc14] at hd
      by_cases hpl : data.length <
          (if Nat.testBit (data.getD 0 0) 4 = true then 14 else 10) +
            (data.getD 8 0 * 256 + data.getD 9 0)
      · rw [if_pos hpl] at hd
        cases hd
      · rw [if_neg hpl] at hd
        injection hd with hh
        subst hh
        by_cases htc : Nat.testBit (data.getD 0 0) 4 = true
        · have hpos : (if Nat.testBit (data.getD 0 0) 4 = true then 14 else 10) = 14 :=
            if_pos htc
          rw [hpos] at hpl
          show ((data.drop (if Nat.testBit (data.getD 0 0) 4 = true then 14 else 10)).take
            (data.getD 8 0 * 256 + data.getD 9 0)).length = _
          rw [hpos]
          simp only [List.length_take, List.length_drop]
          omega
        · have hpos : (if Nat.testBit (data.getD 0 0) 4 = true then 14 else 10) = 10 :=
            if_neg htc
          rw [hpos] at hpl
          show ((data.drop (if Nat.testBit (data.getD 0 0) 4 = true then 14 else 10)).take
            (data.getD 8 0 * 256 + data.getD 9 0)).length = _
          rw [hpos]
          simp only [List.length_take, List.length_drop]
          omega

lemma allFull_false_of_broken (st : CaptureState) (hbroken : brokenB st = true) :
    allFull st.filledCount st.buffers = false := by
  rw [brokenB, List.any_eq_true] at hbroken
  obtain ⟨idx, hidx, hlt⟩ := hbroken
  rw [List.mem_range] at hidx
  rw [decide_eq_true_eq] at hlt
  have hnot : ¬ (allFull st.filledCount st.buffers = true) := by
    intro hall
    rw [allFull, List.all_eq_true] at hall
    have := hall idx (List.mem_range.mpr hidx)
    rw [beq_iff_eq] at this
    omega
  cases hAF : allFull st.filledCount st.buffers with
  | false => rfl
  | true => exact absurd hAF hnot

lemma writeStage_preserves (st : CaptureState) (i : Nat) (h : DDPHeader)
    (hcons : consistentB st = true)
    (hm : matchRange st.stringsRanges h.offset h.length = some i)
    (hpl : h.payload.length = h.length) :
    consistentB (writeStage st i h) = true ∧
    (∀ j, ((writeStage st i h).buffers.getD j []).length = (st.buffers.getD j []).length) ∧
    (∀ j, st.filledCount.getD j 0 ≤ (writeStage st i h).filledCount.getD j 0) ∧
    (writeStage st i h).buffers.length = st.buffers.length := by
  obtain ⟨h0, hlen, hfit, hmin⟩ := matchRangeAux_some_spec st.stringsRanges h.offset h.length 0 i hm
  rw [Nat.sub_zero] at hlen hfit
  simp only [consistentB, Bool.and_eq_true, beq_iff_eq, List.all_eq_true, List.mem_range] at hcons
  obtain ⟨⟨hbl, hfl⟩, hbufs⟩ := hcons
  have hib : i < st.buffers.length := by omega
  have hbufi := hbufs i hlen
  have hbound : (h.offset - (st.stringsRanges.getD i (0, 0)).1) + h.payload.length ≤
      (st.buffers.getD i []).length := by
    rw [hpl, hbufi]
    omega
  have hWlen : (writeSlice (st.buffers.getD i [])
      (h.offset - (st.stringsRanges.getD i (0, 0)).1) h.payload).length =
      (st.buffers.getD i []).length := writeSlice_length_of_le _ _ _ hbound
  have hBL : (writeStage st i h).buffers.length = st.buffers.length := by
    simp only [writeStage, List.length_set]
  have hFL : (writeStage st i h).filledCount.length = st.filledCount.length := by
    simp only [writeStage, List.length_set]
  have hbufj : ∀ j, ((writeStage st i h).buffers.getD j []).length =
      (st.buffers.getD j []).length := by
    intro j
    by_cases hij : i = j
    · subst hij
      have hhere : (writeStage st i h).buffers.getD i [] = writeSlice (st.buffers.getD i [])
          (h.offset - (st.stringsRanges.getD i (0, 0)).1) h.payload := by
        simp only [writeStage]
        rw [List.getD_eq_getElem?_getD, List.getElem?_set_self hib]
        rfl
      rw [hhere, hWlen]
    · have hhere : (writeStage st i h).buffers.getD j [] = st.buffers.getD j [] := by
        simp only [writeStage]
        rw [List.getD_eq_getElem?_getD, List.getElem?_set_ne hij, ← List.getD_eq_getElem?_getD]
      rw [hhere]
  have hfilledj : ∀ j, st.filledCount.getD j 0 ≤ (writeStage st i h).filledCount.getD j 0 := by
    intro j
    by_cases hij : i = j
    · subst hij
      by_cases hfi : i < st.filledCount.length
      · have hhere : (writeStage st i h).filledCount.getD i 0 =
            st.filledCount.getD i 0 + h.length := by
          simp only [writeStage]
          rw [List.getD_eq_getElem?_getD, List.getElem?_set_self hfi]
          rfl
        rw [hhere]
        omega
      · have hhere : (writeStage st i h).filledCount.getD i 0 = st.filledCount.getD i 0 := by
          simp only [writeStage]
          rw [List.getD_eq_getElem?_getD,
            List.getElem?_eq_none (by rw [List.length_set]; omega),
            List.getD_eq_getElem?_getD, List.getElem?_eq_none (by omega)]
        rw [hhere]
    · have hhere : (writeStage st i h).filledCount.getD j 0 = st.filledCount.getD j 0 := by
        simp only [writeStage]
        rw [List.getD_eq_getElem?_getD, List.getElem?_set_ne hij, ← List.getD_eq_getElem?_getD]
      rw [hhere]
  refine ⟨?_, hbufj, hfilledj, hBL⟩
  have hranges : (writeStage st i h).stringsRanges = st.stringsRanges := rfl
  simp only [consistentB, Bool.and_eq_true, beq_iff_eq, List.all_eq_true, List.mem_range,
    hranges, hBL, hFL]
  refine ⟨⟨hbl, hfl⟩, ?_⟩
  intro x hx
  rw [hbufj x]
  exact hbufs x hx

lemma brokenB_writeStage (st : CaptureState) (i : Nat) (h : DDPHeader)
    (hcons : consistentB st = true)
    (hm : matchRange st.stringsRanges h.offset h.length = some i)
    (hpl : h.payload.length = h.length)
    (hbroken : brokenB st = true) :
    brokenB (writeStage st i h) = true := by
  obtain ⟨_, hbufj, hfilledj, hBL⟩ := writeStage_preserves st i h hcons hm hpl
  rw [brokenB, List.any_eq_true] at hbroken ⊢
  obtain ⟨j, hj, hlt⟩ := hbroken
  rw [List.mem_range] at hj
  rw [decide_eq_true_eq] at hlt
  refine ⟨j, ?_, ?_⟩
  · rw [List.mem_range, hBL]
    exact hj
  · rw [decide_eq_true_eq, hbufj j]
    have := hfilledj j
    omega

lemma broken_collectStep (st : CaptureState) (h : DDPHeader) (now : Nat)
    (hcons : consistentB st = true) (hbroken : brokenB st = true)
    (hpl : h.payload.length = h.length) :
    ∃ st2, collectStep st h now = .ok st2 ∧
      st2.collecting = st.collecting ∧ consistentB st2 = true ∧ brokenB st2 = true ∧
      st2.output = st.output ∧ st2.framesWritten = st.framesWritten := by
  rw [collectStep]
  cases hm : matchRange st.stringsRanges h.offset h.length with
  | none => exact ⟨st, rfl, rfl, hcons, hbroken, rfl, rfl⟩
  | some i =>
    show ∃ st2,
      (if allFull (writeStage st i h).filledCount (writeStage st i h).buffers = true
        then emitFrame (writeStage st i h) now else .ok (writeStage st i h)) = .ok st2 ∧ _
    have hconsW := (writeStage_preserves st i h hcons hm hpl).1
    have hbrokenW := brokenB_writeStage st i h hcons hm hpl hbroken
    rw [if_neg (by rw [allFull_false_of_broken _ hbrokenW]; exact Bool.false_ne_true)]
    exact ⟨writeStage st i h, rfl, rfl, hconsW, hbrokenW, rfl, rfl⟩

lemma broken_processHeader (st : CaptureState) (h : DDPHeader) (now : Nat)
    (hc : st.collecting = true) (hcons : consistentB st = true)
    (hbroken : brokenB st = true) (hpl : h.payload.length = h.length) :
    ∃ st2, processHeader st h now = .ok st2 ∧
      st2.collecting = true ∧ consistentB st2 = true ∧ brokenB st2 = true ∧
      st2.output = st.output ∧ st2.framesWritten = st.framesWritten := by
  rw [processHeader]
  have hps : pushStage st h = st := by
    rw [pushStage]
    rw [if_neg (by simp [hc])]
  rw [hps]
  have hfs : finalizeStep st = .ok st := by
    rw [finalizeStep]
    rw [if_neg (by rintro ⟨h1, _⟩; rw [hc] at h1; cases h1)]
  rw [hfs]
  simp only [Except.bind]
  by_cases hemp : (st.isBeginning && isEmptyBytes h.payload) = true
  · rw [if_pos hemp]
    exact ⟨_, rfl, hc, hcons, hbroken, rfl, rfl⟩
  · rw [if_neg hemp]
    by_cases hbeg : st.isBeginning = true
    · rw [if_pos hbeg]
      dsimp only
      rw [if_pos hc]
      obtain ⟨st2, hcol, hc2, hcons2, hbroken2, hout2, hfw2⟩ :=
        broken_collectStep
          { st with
            isBeginning := false
            startTime := some now
            lastFrameTime := some now } h now hcons hbroken hpl
      exact ⟨st2, hcol, hc2.trans hc, hcons2, hbroken2, hout2, hfw2⟩
    · rw [if_neg hbeg]
      rw [if_pos hc]
      obtain ⟨st2, hcol, hc2, hcons2, hbroken2, hout2, hfw2⟩ :=
        broken_collectStep st h now hcons hbroken hpl
      exact ⟨st2, hcol, hc2.trans hc, hcons2, hbroken2, hout2, hfw2⟩

lemma broken_step (st : CaptureState) (data : List Nat) (now : Nat)
    (hc : st.collecting = true) (hcons : consistentB st = true)
    (hbroken : brokenB st = true) :
    ∃ st2, processDatagram st data now = .ok st2 ∧
      st2.collecting = true ∧ consistentB st2 = true ∧ brokenB st2 = true ∧
      st2.output = st.output ∧ st2.framesWritten = st.framesWritten := by
  by_cases hterm : st.terminated = true
  · rw [processDatagram, if_pos hterm]
    exact ⟨st, rfl, hc, hcons, hbroken, rfl, rfl⟩
  · rw [processDatagram, if_neg hterm]
    cases hd : decodeDatagram data with
    | error e => cases e <;> exact ⟨_, rfl, hc, hcons, hbroken, rfl, rfl⟩
    | ok h =>
      have hpl : h.payload.length = h.length := decode_payload_length data h hd
      exact broken_processHeader { st with packetsSeen := st.packetsSeen + 1 } h now
        hc hcons hbroken hpl

/-- C10: once an accepted overlapping write pushes some string's filled count above
its own buffer length in a collecting session with consistently sized buffers, the
all-buffers-full condition can never hold again for any subsequent packet sequence:
no further frame record is appended and the frame counter never moves, because the
counts only grow and the reset runs only on frame completion. -/
theorem C10_overflow_blocks_frames (st : CaptureState)
    (hc : st.collecting = true) (hcons : consistentB st = true)
    (hbroken : brokenB st = true) :
    ∀ evs : List (List Nat × Nat),
      ∃ st2, runPackets st evs = .ok st2 ∧
        st2.output = st.output ∧ st2.framesWritten = st.framesWritten ∧
        brokenB st2 = true := by
  suffices H : ∀ evs : List (List Nat × Nat), ∀ st : CaptureState,
      st.collecting = true → consistentB st = true → brokenB st = true →
      ∃ st2, runPackets st evs = .ok st2 ∧
        st2.output = st.output ∧ st2.framesWritten = st.framesWritten ∧
        brokenB st2 = true by
    exact fun evs => H evs st hc hcons hbroken
  intro evs
  induction evs with
  | nil =>
    intro st hc hcons hbroken
    exact ⟨st, rfl, rfl, rfl, hbroken⟩
  | cons ev evs ih =>
    intro st hc hcons hbroken
    obtain ⟨st1, hstep, hc1, hcons1, hbroken1, hout1, hfw1⟩ :=
      broken_step st ev.1 ev.2 hc hcons hbroken
    obtain ⟨st2, hrun, hout2, hfw2, hbroken2⟩ := ih st1 hc1 hcons1 hbroken1
    refine ⟨st2, ?_, by rw [hout2, hout1], by rw [hfw2, hfw1], hbroken2⟩
    rw [runPackets, hstep]
    simp only [Except.bind]
    exact hrun

/-- Witness for C10: from the over-counted single-string state, a perfectly fitting
6-byte write still produces no frame record. -/
theorem C10_witness :
    (runPackets overfilledState
      [([0, 0, 0, 0, 0, 0, 0, 0, 0, 6, 1, 1, 1, 1, 1, 1], 50)]).map
      (fun s => (s.output, s.framesWritten, brokenB s)) =
      .ok (overfilledState.output, 0, true) := by
  obtain ⟨st2, hrun, hout, hfw, hbr⟩ := C10_overflow_blocks_frames overfilledState
    rfl (by decide) (by decide) [([0, 0, 0, 0, 0, 0, 0, 0, 0, 6, 1, 1, 1, 1, 1, 1], 50)]
  rw [hrun]
  simp only [Except.map]
  rw [hout, hfw, hbr]
  rfl
